import Mathlib

/-!
# Verification of the voxel-terrain engine

A shallow embedding of the voxel engine of this repository (the converged
variant of `VoxelWorld.tsx`, together with the camera controller), and proofs
about the claims of the specification.

Conventions of the embedding:

* The sparse voxel store of the source is a JavaScript `Map` keyed by the
  string `"${x},${y},${z}"`.  That encoding is injective on integer triples,
  so the store is embedded as a function `Coord → Option BlockData`; `get`,
  `set` and `delete` become function application, pointwise update and
  pointwise erasure.
* Numeric values are embedded exactly: integer quantities as `ℤ`, fractional
  arithmetic of the noise pipeline as `ℚ`, and the one transcendental step
  (`Math.tanh`) over `ℝ`.
* The block-type strings `'grass'`, `'dirt'`, … of the source are the
  material enumeration `Mat`.  (The source's `BlockData` also declares an
  optional `outline` field that no code path ever stores; it is omitted.)
-/

/-- The material enumeration of the engine
(`MATERIALS` / the block-type strings of `VoxelWorld.tsx`). -/
inductive Mat : Type
  | grass | dirt | stone | sand | snow | rock | water
  deriving DecidableEq, Repr

/-- An integer voxel coordinate `(x, y, z)`. -/
abbrev Coord : Type := ℤ × ℤ × ℤ

/-- A stored block record (`BlockData` of the source): world position,
material, and the optional override color set by `setBlockColor`. -/
structure BlockData : Type where
  position : Coord
  type : Mat
  color : Option ℤ := none
  deriving DecidableEq, Repr

/-- The sparse voxel store: the `worldData : Map<string, BlockData>` of the
source, embedded as a function from decoded keys to records. -/
abbrev Store : Type := Coord → Option BlockData

/-- The empty store (the state before any generation pass). -/
def emptyStore : Store := fun _ => none

/-- `worldInstance.removeBlock` of the converged variant: delete the record
at the coordinate (water or not) -- `newData.delete(key)`. -/
def removeBlock (p : Coord) (s : Store) : Store :=
  fun c => if c = p then none else s c

/-- `worldInstance.addBlock` of the converged variant: refuse `'water'`,
otherwise insert a fresh record unless the coordinate is already occupied
(`if (!newData.has(key)) newData.set(key, { position, type })`). -/
def addBlock (p : Coord) (t : Mat) (s : Store) : Store :=
  if t = Mat.water then s
  else if (s p).isSome then s
  else fun c => if c = p then some { position := p, type := t } else s c

/-- `worldInstance.changeBlock` of the converged variant: refuse `'water'`
as a target type, and update the material in place only when a record exists
and is itself not water (`if (block && block.type !== 'water')`). -/
def changeBlock (p : Coord) (t : Mat) (s : Store) : Store :=
  if t = Mat.water then s
  else
    match s p with
    | none => s
    | some b =>
        if b.type = Mat.water then s
        else fun c => if c = p then some { b with type := t } else s c

/-- `worldInstance.setBlockColor`: set the override color of an existing
record; a no-op on an absent coordinate. -/
def setBlockColor (p : Coord) (col : ℤ) (s : Store) : Store :=
  match s p with
  | none => s
  | some b => fun c => if c = p then some { b with color := some col } else s c

/-- The public `getBlock(x, y, z)` of the converged variant: return the
stored record only when it exists and its material is not water
(`if (blockData && blockData.type !== 'water')`). -/
def getBlock (s : Store) (c : Coord) : Option BlockData :=
  match s c with
  | none => none
  | some b => if b.type = Mat.water then none else some b

/-- One store mutation of the public API, for reasoning about mutation
sequences. -/
inductive Mut : Type
  | add (p : Coord) (t : Mat)
  | remove (p : Coord)
  | change (p : Coord) (t : Mat)
  deriving DecidableEq

/-- Apply one mutation. -/
def applyMut (s : Store) : Mut → Store
  | Mut.add p t => addBlock p t s
  | Mut.remove p => removeBlock p s
  | Mut.change p t => changeBlock p t s

/-- Apply a sequence of mutations, first element first. -/
def applyMuts (ms : List Mut) (s : Store) : Store :=
  ms.foldl applyMut s

/-! ## Noise field and terrain generation (converged variant constants:
`WORLD_SIZE = 128`, `MAX_HEIGHT = 40`, `WATER_LEVEL = 12`,
`BEACH_HEIGHT = 15`, `NOISE_SCALE = 30`, `OCTAVES = 5`,
`LACUNARITY = 2.0`, `PERSISTENCE = 0.5`, `TERRAIN_OFFSET = -2`). -/

def WORLD_SIZE : ℤ := 128
def MAX_HEIGHT : ℤ := 40
def WATER_LEVEL : ℤ := 12
def BEACH_HEIGHT : ℤ := WATER_LEVEL + 3
def NOISE_SCALE : ℚ := 30
def OCTAVES : ℕ := 5
def TERRAIN_OFFSET : ℤ := -2

/-- `smoothNoise`: sample the lattice noise `n` at the four integer corners
around `(x, z)` and interpolate with the smoothstep weights
`f * f * (3 - 2 * f)` of the fractional parts. -/
def smoothNoise (n : ℤ → ℤ → ℚ) (x z : ℚ) : ℚ :=
  let intX : ℤ := ⌊x⌋
  let intZ : ℤ := ⌊z⌋
  let fracX : ℚ := x - intX
  let fracZ : ℚ := z - intZ
  let a := n intX intZ
  let b := n (intX + 1) intZ
  let c := n intX (intZ + 1)
  let d := n (intX + 1) (intZ + 1)
  let fx := fracX * fracX * (3 - 2 * fracX)
  let fz := fracZ * fracZ * (3 - 2 * fracZ)
  let x1 := a * (1 - fx) + b * fx
  let x2 := c * (1 - fx) + d * fx
  x1 * (1 - fz) + x2 * fz

/-- One octave of the `getFractalNoise` loop, acting on the accumulator
`(total, frequency, amplitude, maxValue)`: accumulate the weighted sample
and the amplitude, double the frequency (`LACUNARITY`), halve the amplitude
(`PERSISTENCE`). -/
def octaveStep (n : ℤ → ℤ → ℚ) (x z : ℚ) (acc : ℚ × ℚ × ℚ × ℚ) (_ : ℕ) : ℚ × ℚ × ℚ × ℚ :=
  let total := acc.1
  let frequency := acc.2.1
  let amplitude := acc.2.2.1
  let maxValue := acc.2.2.2
  (total + smoothNoise n (x * frequency) (z * frequency) * amplitude,
    frequency * 2, amplitude * (1 / 2), maxValue + amplitude)

/-- The octave accumulator of `getFractalNoise` after all `OCTAVES`
iterations, starting from `total = 0`, `frequency = 1`, `amplitude = 1`,
`maxValue = 0`. -/
def fractalAcc (n : ℤ → ℤ → ℚ) (x z : ℚ) : ℚ × ℚ × ℚ × ℚ :=
  (List.range OCTAVES).foldl (octaveStep n x z) (0, 1, 1, 0)

/-- The pre-saturation value `normalized = total / maxValue` of
`getFractalNoise`. -/
def fractalNormalized (n : ℤ → ℤ → ℚ) (x z : ℚ) : ℚ :=
  (fractalAcc n x z).1 / (fractalAcc n x z).2.2.2

/-- `getFractalNoise`: the normalized octave sum compressed through the
saturating nonlinearity `Math.tanh(normalized * 1.5) / Math.tanh(1.5)`. -/
noncomputable def getFractalNoise (n : ℤ → ℤ → ℚ) (x z : ℚ) : ℝ :=
  Real.tanh ((fractalNormalized n x z : ℝ) * 1.5) / Real.tanh 1.5

/-- One cell of the height map built by `generateWorld`: grid column
`(gx, gz)` (with `0 ≤ gx, gz < 128`) is sampled at world coordinates
`(gx - 64) / NOISE_SCALE`, and the noise value is mapped to an elevation by
`Math.floor(((noiseValue + 1) / 2) * MAX_HEIGHT) + TERRAIN_OFFSET`. -/
noncomputable def heightMapVal (n : ℤ → ℤ → ℚ) (gx gz : ℤ) : ℤ :=
  ⌊((getFractalNoise n ((gx - 64 : ℤ) / NOISE_SCALE) ((gz - 64 : ℤ) / NOISE_SCALE) + 1) / 2) * (MAX_HEIGHT : ℝ)⌋
    + TERRAIN_OFFSET

/-- `getBlockType`: classify the voxel at height `y` in a column of surface
height `surfaceHeight`. -/
def getBlockType (y surfaceHeight : ℤ) : Mat :=
  if surfaceHeight < y then Mat.water
  else if y = surfaceHeight then
    if 28 < surfaceHeight then Mat.snow
    else if 22 < surfaceHeight then Mat.rock
    else if surfaceHeight ≤ BEACH_HEIGHT then Mat.sand
    else Mat.grass
  else if surfaceHeight - y < 5 then Mat.dirt
  else Mat.stone

/-- `isBlockVisible`: a voxel at grid position `(x, y, z)` is visible when it
is on the world boundary, at a vertical extreme, at or above its own column's
surface, or higher than one of the four horizontally adjacent columns.
`hm` is the dense height map (only indices `0 ≤ x, z < 128` are ever
queried by the generator, and the neighbour reads only happen off the
boundary, exactly as in the source's early returns). -/
def isBlockVisible (hm : ℤ → ℤ → ℤ) (x y z : ℤ) : Bool :=
  if x = 0 ∨ x = WORLD_SIZE - 1 ∨ z = 0 ∨ z = WORLD_SIZE - 1 then true
  else if y = 0 ∨ y = MAX_HEIGHT - 1 then true
  else if hm x z < y then true
  else if y = hm x z then true
  else if hm (x - 1) z < y ∨ hm (x + 1) z < y ∨ hm x (z - 1) < y ∨ hm x (z + 1) < y then true
  else false

/-! ## The generation pass (`generateWorld`)

The per-column loop of `generateWorld` runs `y` from `0` (inclusive) to
`Math.max(surfaceHeight + 1, WATER_LEVEL + 1)` (exclusive), skips `y` above
`MAX_HEIGHT`, skips air above both the column surface and the water level,
skips invisible voxels, and stores a record under the world-coordinate key
`"${worldX},${y},${worldZ}"` with `worldX = x - WORLD_SIZE / 2`.  Every key
is written at most once (the loop visits each `(worldX, y, worldZ)` once),
so the resulting `Map` is embedded as a per-coordinate function. -/

/-- The candidate heights of one column's loop:
`0 ≤ y < max (surfaceHeight + 1) (WATER_LEVEL + 1)`. -/
def columnYs (surfaceHeight : ℤ) : List ℤ :=
  (List.range (max (surfaceHeight + 1) (WATER_LEVEL + 1)).toNat).map Int.ofNat

/-- The block records emitted for grid column `(gx, gz)` by the generation
loop, in increasing `y` order; the three `continue` tests and the visibility
cull are applied exactly as in the source. -/
def columnBlocks (hm : ℤ → ℤ → ℤ) (gx gz : ℤ) : List BlockData :=
  (columnYs (hm gx gz)).filterMap fun y =>
    if MAX_HEIGHT < y then none
    else if hm gx gz < y ∧ WATER_LEVEL < y then none
    else if isBlockVisible hm gx y gz then
      some { position := (gx - 64, y, gz - 64), type := getBlockType y (hm gx gz) }
    else none

/-- The surface entry contributed by grid column `(gx, gz)`: the first
emitted block with `y === surfaceHeight && blockType !== 'water' &&
surfaceHeight >= WATER_LEVEL` (the `surfaceBlockAdded` flag of the source
keeps only the first match). -/
def columnSurface (hm : ℤ → ℤ → ℤ) (gx gz : ℤ) : Option BlockData :=
  (columnBlocks hm gx gz).find? fun b =>
    b.position.2.1 = hm gx gz ∧ b.type ≠ Mat.water ∧ WATER_LEVEL ≤ hm gx gz

/-- The grid columns in the loop order of `generateWorld` (outer `x`,
inner `z`). -/
def gridCells : List (ℤ × ℤ) :=
  (List.range WORLD_SIZE.toNat).flatMap fun gx =>
    (List.range WORLD_SIZE.toNat).map fun gz => (Int.ofNat gx, Int.ofNat gz)

/-- The surface block index (`newSurfaceBlocks`) produced by one generation
pass over the height map `hm`. -/
def surfaceIndex (hm : ℤ → ℤ → ℤ) : List BlockData :=
  gridCells.filterMap fun cell => columnSurface hm cell.1 cell.2

/-- The voxel store (`newWorldData`) produced by one generation pass over
the height map `hm`: world coordinate `(wx, y, wz)` holds a record exactly
when its grid column `(wx + 64, wz + 64)` lies in the grid and the loop body
emits height `y`. -/
def generateStore (hm : ℤ → ℤ → ℤ) : Store := fun c =>
  let wx := c.1
  let y := c.2.1
  let wz := c.2.2
  let gx := wx + 64
  let gz := wz + 64
  let h := hm gx gz
  if 0 ≤ gx ∧ gx < WORLD_SIZE ∧ 0 ≤ gz ∧ gz < WORLD_SIZE ∧
      0 ≤ y ∧ y < max (h + 1) (WATER_LEVEL + 1) ∧
      ¬ MAX_HEIGHT < y ∧ ¬ (h < y ∧ WATER_LEVEL < y) ∧
      isBlockVisible hm gx y gz then
    some { position := c, type := getBlockType y h }
  else none

/-! ## The seeded run

`generateWorld` draws `newSeed` and builds its sampler as
`createNoise2D(() => (newSeed * 9301 + 49297) % 233280 / 233280)`.
The `simplex-noise` library (an external collaborator) constructs a lattice
sampler deterministically from that random source, so a run of the generator
is determined by the library's construction `lib` applied to the seed's
source value. -/

/-- The random source `() => (newSeed * 9301 + 49297) % 233280 / 233280`
handed to `createNoise2D`, as a function of the drawn seed. -/
def seedNoiseSource (seed : ℕ) : ℚ :=
  ((seed * 9301 + 49297) % 233280 : ℕ) / 233280

/-- The height map of a seeded generation run; `lib` is the deterministic
sampler construction of `createNoise2D`. -/
noncomputable def generationHeightMap (lib : ℚ → ℤ → ℤ → ℚ) (seed : ℕ) : ℤ → ℤ → ℤ :=
  heightMapVal (lib (seedNoiseSource seed))

/-- The voxel store of a seeded generation run. -/
noncomputable def generationStore (lib : ℚ → ℤ → ℤ → ℚ) (seed : ℕ) : Store :=
  generateStore (generationHeightMap lib seed)

/-- The surface index of a seeded generation run. -/
noncomputable def generationSurface (lib : ℚ → ℤ → ℤ → ℚ) (seed : ℕ) : List BlockData :=
  surfaceIndex (generationHeightMap lib seed)

/-! ## Picker (`handlePointerDown`)

The hit point and face normal are float vectors; they are embedded over `ℚ`.
`Math.round(v)` is `⌊v + 1/2⌋` (round half toward `+∞`). -/

/-- `Math.round` on a rational. -/
def roundJS (q : ℚ) : ℤ := ⌊q + 1 / 2⌋

/-- A continuous point, for the picker. -/
abbrev QVec : Type := ℚ × ℚ × ℚ

/-- The coordinate resolution of the picker:
`blockPos = point.clone().sub(normal.clone().multiplyScalar(0.5))`, then
`Math.round` on each component. -/
def resolveCoord (point normal : QVec) : Coord :=
  (roundJS (point.1 - normal.1 * (1 / 2)),
    roundJS (point.2.1 - normal.2.1 * (1 / 2)),
    roundJS (point.2.2 - normal.2.2 * (1 / 2)))

/-- The picker's block lookup: the stored record at the resolved coordinate,
but only when one exists and is not water
(`if (blockData && blockData.type !== 'water')`). -/
def pickBlock (s : Store) (point normal : QVec) : Option BlockData :=
  match s (resolveCoord point normal) with
  | none => none
  | some b => if b.type = Mat.water then none else some b

/-! ## Surface sampling (`getRandomSurfaceBlocks`)

The source shuffles the valid surface blocks with a random comparator; the
shuffled order enters the embedding as an explicit list (constrained, where
a theorem needs it, to be a permutation of the filtered surface index).
`Math.sqrt(dx*dx + dz*dz) < 8` is embedded as `dx^2 + dz^2 < 64`, the exact
same test on rationals (see `sqrt_lt_eight_iff`). -/

/-- The validity filter of `getRandomSurfaceBlocks`:
`block.type !== 'water' && block.position.y >= WATER_LEVEL`. -/
def validSurface (b : BlockData) : Bool :=
  decide (b.type ≠ Mat.water ∧ WATER_LEVEL ≤ b.position.2.1)

/-- Squared horizontal distance between two block records (the positions of
stored blocks are integer voxel coordinates, so the float computation
`dx*dx + dz*dz` of the source is exact over `ℤ`). -/
def dist2 (a b : BlockData) : ℤ :=
  (a.position.1 - b.position.1) ^ 2 + (a.position.2.2 - b.position.2.2) ^ 2

/-- The `tooClose` test: some already-selected block lies at horizontal
distance `< 8`. -/
def tooClose (b : BlockData) (selected : List BlockData) : Bool :=
  selected.any fun sb => decide (dist2 b sb < 64)

/-- The greedy selection loop: walk the shuffled candidates, stop at
`count`, and keep a candidate only when it is not too close to the ones
already kept. -/
def greedySelect (count : ℕ) : List BlockData → List BlockData → List BlockData
  | [], selected => selected
  | b :: rest, selected =>
      if count ≤ selected.length then selected
      else if tooClose b selected then greedySelect count rest selected
      else greedySelect count rest (selected ++ [b])

/-- The fallback fill: when the greedy pass kept fewer than `count` blocks,
append the first unselected shuffled candidates up to the requested count. -/
def fillSelect (count : ℕ) (shuffled selected : List BlockData) : List BlockData :=
  if selected.length < count then
    selected ++ (shuffled.filter fun b => ¬ selected.contains b).take (count - selected.length)
  else selected

/-- `getRandomSurfaceBlocks(count)`: empty result on an empty surface index,
otherwise the greedy selection over the shuffled valid blocks, padded by the
unconstrained fill. -/
def getRandomSurfaceBlocks (surface shuffled : List BlockData) (count : ℕ) : List BlockData :=
  if surface.length = 0 then []
  else fillSelect count shuffled (greedySelect count shuffled [])

/-! ## Camera navigator (second `CameraController` variant)

Camera positions are float vectors, embedded over `ℝ`. -/

/-- A continuous camera-space point. -/
abbrev Vec3 : Type := ℝ × ℝ × ℝ

/-- `Math.round` on a real. -/
noncomputable def roundR (x : ℝ) : ℤ := ⌊x + 1 / 2⌋

/-- Round a position to the voxel grid, componentwise. -/
noncomputable def roundV (p : Vec3) : Coord := (roundR p.1, roundR p.2.1, roundR p.2.2)

/-- `checkCameraCollision` of the second variant: a stored (non-water) block
at the rounded camera position (`!!world.getBlock(x, y, z)`). -/
noncomputable def checkCameraCollision (s : Store) (p : Vec3) : Bool :=
  (getBlock s (roundV p)).isSome

/-- `THREE.Vector3.length`. -/
noncomputable def vecLength (v : Vec3) : ℝ :=
  Real.sqrt (v.1 ^ 2 + v.2.1 ^ 2 + v.2.2 ^ 2)

/-- `v.normalize().multiplyScalar(k)`. -/
noncomputable def normMulScalar (v : Vec3) (k : ℝ) : Vec3 :=
  (v.1 / vecLength v * k, v.2.1 / vecLength v * k, v.2.2 / vecLength v * k)

/-- `a.distanceTo(b)`. -/
noncomputable def distanceTo (a b : Vec3) : ℝ :=
  vecLength (b.1 - a.1, b.2.1 - a.2.1, b.2.2 - a.2.2)

/-- `a.clone().lerp(b, t)`. -/
def lerpVec (a b : Vec3) (t : ℝ) : Vec3 :=
  (a.1 + (b.1 - a.1) * t, a.2.1 + (b.2.1 - a.2.1) * t, a.2.2 + (b.2.2 - a.2.2) * t)

/-- The line-of-sight test of `findIdealSpot`: every intermediate sample
point (`steps = Math.ceil(distance * 2)`, skipping the target's own rounded
voxel) finds no stored block. -/
def ClearView (s : Store) (pos target : Vec3) : Prop :=
  ∀ i : ℤ, 1 ≤ i → i < ⌈distanceTo pos target * 2⌉ →
    roundV (lerpVec pos target ((i : ℝ) / ((⌈distanceTo pos target * 2⌉ : ℤ) : ℝ))) ≠ roundV target →
    getBlock s (roundV (lerpVec pos target ((i : ℝ) / ((⌈distanceTo pos target * 2⌉ : ℤ) : ℝ)))) = none

/-- A candidate passes when it is collision-free and has a clear view of the
target. -/
def IsValidSpot (s : Store) (c target : Vec3) : Prop :=
  checkCameraCollision s c = false ∧ ClearView s c target

open Classical in
/-- The candidate scan of `findIdealSpot`: the first valid candidate, if
any. -/
noncomputable def firstValid (s : Store) (target : Vec3) : List Vec3 → Option Vec3
  | [] => none
  | c :: rest => if IsValidSpot s c target then some c else firstValid s target rest

/-- The candidate heights of the second variant. -/
def cameraHeights : List ℝ := [3, 6, 10, 15, 20]

/-- The eight candidate directions (cardinals, then the four normalized
diagonals scaled back to the preferred distance `pd`). -/
noncomputable def cameraDirections (pd : ℝ) : List Vec3 :=
  [(0, 0, pd), (0, 0, -pd), (pd, 0, 0), (-pd, 0, 0),
    normMulScalar (pd, 0, pd) pd, normMulScalar (-pd, 0, pd) pd,
    normMulScalar (pd, 0, -pd) pd, normMulScalar (-pd, 0, -pd) pd]

/-- The candidate positions, in search order: outer loop over heights,
inner loop over directions; `target + direction + (0, height, 0)`. -/
noncomputable def vantageCandidates (target : Vec3) (pd : ℝ) : List Vec3 :=
  cameraHeights.flatMap fun h =>
    (cameraDirections pd).map fun d =>
      (target.1 + d.1, target.2.1 + d.2.1 + h, target.2.2 + d.2.2)

/-- `findIdealSpot` of the second variant: the first valid candidate, or the
unchecked fallback `target + (0, 25, 5)`. -/
noncomputable def findIdealSpot (s : Store) (target : Vec3) (pd : ℝ) : Vec3 :=
  (firstValid s target (vantageCandidates target pd)).getD
    (target.1, target.2.1 + 25, target.2.2 + 5)

/-! ## Concrete fixtures used by witnesses and counterexamples -/

/-- A small store holding one water record at `(3, 9, -4)` and one grass
record at the origin. -/
def wStore : Store := fun c =>
  if c = ((3 : ℤ), 9, (-4 : ℤ)) then
    some { position := (3, 9, -4), type := Mat.water }
  else if c = ((0 : ℤ), 0, (0 : ℤ)) then
    some { position := (0, 0, 0), type := Mat.grass }
  else none

/-- The trivial sampler construction (every sample `0`), used to
instantiate seeded-run statements on a concrete library. -/
def zeroLib : ℚ → ℤ → ℤ → ℚ := fun _ _ _ => 0

/-- The consistency property of the surface block index (spec §3/§8): every
indexed record sits at or above the water level and has no stored record
anywhere above it in its own column. -/
def surfaceConsistent (s : Store) (idx : List BlockData) : Prop :=
  ∀ b ∈ idx, WATER_LEVEL ≤ b.position.2.1 ∧
    ∀ y', b.position.2.1 < y' → s (b.position.1, y', b.position.2.2) = none

/-- A surface-index record fixture: a grass block at `(x, 12, 0)`. -/
def sB (x : ℤ) : BlockData := ⟨(x, 12, 0), Mat.grass, none⟩

/-- An adversarially ordered surface index: seven blocks at multiples of 8
offset by 4 (each exactly 8 from its neighbours), followed by eight blocks
at multiples of 8. -/
def advSurface : List BlockData :=
  [sB 4, sB 12, sB 20, sB 28, sB 36, sB 44, sB 52,
    sB 0, sB 8, sB 16, sB 24, sB 32, sB 40, sB 48, sB 56]

/-- The eight pairwise well-separated blocks inside `advSurface`. -/
def sepSurface : List BlockData :=
  [sB 0, sB 8, sB 16, sB 24, sB 32, sB 40, sB 48, sB 56]

/-- A box of grass blocks: every coordinate with `1 ≤ y ≤ 26` and
`-9 ≤ x, z ≤ 9` is occupied.  Each record is exactly what `addBlock`
inserts; `boxStore_reachable` below produces this store through the mutation
API from the empty store. -/
def boxStore : Store := fun c =>
  if 1 ≤ c.2.1 ∧ c.2.1 ≤ 26 ∧ -9 ≤ c.1 ∧ c.1 ≤ 9 ∧ -9 ≤ c.2.2 ∧ c.2.2 ≤ 9 then
    some { position := c, type := Mat.grass }
  else none

/-- The coordinates of `boxStore`, enumerated without repetition. -/
def boxCoords : List Coord :=
  ((List.range 19) ×ˢ (List.range 26) ×ˢ (List.range 19)).map fun t =>
    ((t.1 : ℤ) - 9, (t.2.1 : ℤ) + 1, (t.2.2 : ℤ) - 9)

/-! ## Helper lemmas -/

/-- `Math.round` of an integer-valued real is that integer. -/
theorem roundR_intCast (n : ℤ) : roundR (n : ℝ) = n := by
  unfold roundR
  rw [add_comm, Int.floor_add_int]
  norm_num

/-- Bracketing characterization of `Math.round` over `ℝ`. -/
theorem roundR_eq (x : ℝ) (n : ℤ) (h1 : (n : ℝ) ≤ x + 1 / 2) (h2 : x + 1 / 2 < n + 1) :
    roundR x = n := by
  unfold roundR
  exact Int.floor_eq_iff.mpr ⟨h1, h2⟩

/-- The separation test of the source, `Math.sqrt(dx*dx + dz*dz) < 8`, is
exactly the squared test `dx^2 + dz^2 < 64` used by the embedding. -/
theorem sqrt_lt_eight_iff (a : ℝ) (ha : 0 ≤ a) : Real.sqrt a < 8 ↔ a < 64 := by
  rw [show (8 : ℝ) = Real.sqrt 64 from by
    rw [show (64 : ℝ) = 8 ^ 2 by norm_num, Real.sqrt_sq (by norm_num : (0 : ℝ) ≤ 8)]]
  exact ⟨fun h => (Real.sqrt_lt_sqrt_iff ha).mp h, fun h => Real.sqrt_lt_sqrt ha h⟩

/-- Rounding an integer-valued point hits that lattice point. -/
theorem roundV_intCast (a b c : ℤ) :
    roundV ((a : ℝ), (b : ℝ), (c : ℝ)) = (a, b, c) := by
  unfold roundV
  simp only [roundR_intCast]

/-! ## C2: water immutability of the mutation API -/

/-- C2: `addBlock` is a no-op when the material is water or the coordinate
is occupied; `changeBlock` is a no-op when the target material is water, the
record is absent, or the existing record is water; neither operation ever
creates a water record or alters one; `removeBlock` deletes any record,
water included. -/
theorem water_immutability (s : Store) (p : Coord) (t : Mat) :
    (t = Mat.water → ∀ c, addBlock p t s c = s c)
    ∧ ((s p).isSome → ∀ c, addBlock p t s c = s c)
    ∧ (t = Mat.water → ∀ c, changeBlock p t s c = s c)
    ∧ (s p = none → ∀ c, changeBlock p t s c = s c)
    ∧ (∀ b, s p = some b → b.type = Mat.water → ∀ c, changeBlock p t s c = s c)
    ∧ (∀ c b, addBlock p t s c = some b → b.type = Mat.water → s c = some b)
    ∧ (∀ c b, changeBlock p t s c = some b → b.type = Mat.water → s c = some b)
    ∧ (∀ q, removeBlock q s q = none) := by
  refine ⟨?_, ?_, ?_, ?_, ?_, ?_, ?_, ?_⟩
  · intro ht c; simp [addBlock, ht]
  · intro hp c; by_cases ht : t = Mat.water <;> simp [addBlock, ht, hp]
  · intro ht c; simp [changeBlock, ht]
  · intro hp c
    by_cases ht : t = Mat.water <;> simp [changeBlock, ht, hp]
  · intro b hb hw c
    by_cases ht : t = Mat.water <;> simp [changeBlock, ht, hb, hw]
  · intro c b hc hw
    by_cases ht : t = Mat.water
    · simpa [addBlock, ht] using hc
    · by_cases hp : (s p).isSome
      · simpa [addBlock, ht, hp] using hc
      · by_cases hcp : c = p
        · rw [addBlock, if_neg ht, if_neg hp] at hc
          simp only [hcp, if_pos rfl] at hc
          cases hc
          simp at hw
          exact absurd hw ht
        · rw [addBlock, if_neg ht, if_neg hp] at hc
          simpa [hcp] using hc
  · intro c b hc hw
    by_cases ht : t = Mat.water
    · simpa [changeBlock, ht] using hc
    · cases hsp : s p with
      | none =>
          rw [show changeBlock p t s = s by simp [changeBlock, ht, hsp]] at hc
          exact hc
      | some b0 =>
          by_cases hb0 : b0.type = Mat.water
          · rw [show changeBlock p t s = s by simp [changeBlock, ht, hsp, hb0]] at hc
            exact hc
          · have hcb : changeBlock p t s c
                = if c = p then some { b0 with type := t } else s c := by
              simp [changeBlock, ht, hsp, hb0]
            rw [hcb] at hc
            by_cases hcp : c = p
            · rw [if_pos hcp] at hc
              cases hc
              simp at hw
              exact absurd hw ht
            · rw [if_neg hcp] at hc
              exact hc
  · intro q; simp [removeBlock]

/-- Witness for C2 at the concrete store `wStore`. -/
theorem water_immutability_witness :
    addBlock ((5 : ℤ), 5, 5) Mat.water wStore ((5 : ℤ), 5, 5) = wStore ((5 : ℤ), 5, 5)
    ∧ addBlock ((0 : ℤ), 0, 0) Mat.sand wStore ((1 : ℤ), 1, 1) = wStore ((1 : ℤ), 1, 1)
    ∧ changeBlock ((0 : ℤ), 0, 0) Mat.water wStore ((0 : ℤ), 0, 0) = wStore ((0 : ℤ), 0, 0)
    ∧ changeBlock ((9 : ℤ), 9, 9) Mat.sand wStore ((9 : ℤ), 9, 9) = wStore ((9 : ℤ), 9, 9)
    ∧ changeBlock ((3 : ℤ), 9, -4) Mat.sand wStore ((2 : ℤ), 2, 2) = wStore ((2 : ℤ), 2, 2)
    ∧ removeBlock ((3 : ℤ), 9, (-4 : ℤ)) wStore ((3 : ℤ), 9, (-4 : ℤ)) = none := by
  refine ⟨(water_immutability wStore _ Mat.water).1 rfl _,
    (water_immutability wStore ((0 : ℤ), 0, 0) Mat.sand).2.1 (by decide) _,
    (water_immutability wStore ((0 : ℤ), 0, 0) Mat.water).2.2.1 rfl _,
    (water_immutability wStore ((9 : ℤ), 9, 9) Mat.sand).2.2.2.1 (by decide) _,
    (water_immutability wStore ((3 : ℤ), 9, -4) Mat.sand).2.2.2.2.1
      { position := (3, 9, -4), type := Mat.water } (by decide) rfl _,
    (water_immutability wStore ((3 : ℤ), 9, -4) Mat.sand).2.2.2.2.2.2.2 _⟩

/-! ## C10: water records are invisible to `getBlock` and to the camera
collision check built on it -/

/-- C10: whenever the stored record at a coordinate is water, the public
`getBlock` returns absent even though a record is present, and the camera
collision check at any position rounding to that coordinate reports no
collision. -/
theorem getBlock_water_absent (s : Store) (c : Coord) (b : BlockData) (p : Vec3) :
    (s c = some b → b.type = Mat.water → getBlock s c = none ∧ (s c).isSome)
    ∧ (s (roundV p) = some b → b.type = Mat.water → checkCameraCollision s p = false) := by
  constructor
  · intro hc hw
    refine ⟨?_, by simp [hc]⟩
    rw [getBlock, hc]
    simp [hw]
  · intro hp hw
    rw [checkCameraCollision, getBlock, hp]
    simp [hw]

/-- Witness for C10: `wStore` has a water record at `(3, 9, -4)`. -/
theorem getBlock_water_absent_witness :
    getBlock wStore ((3 : ℤ), 9, (-4 : ℤ)) = none
    ∧ (wStore ((3 : ℤ), 9, (-4 : ℤ))).isSome
    ∧ checkCameraCollision wStore (((3 : ℤ) : ℝ), ((9 : ℤ) : ℝ), ((-4 : ℤ) : ℝ)) = false := by
  have h := getBlock_water_absent wStore ((3 : ℤ), 9, (-4 : ℤ))
    { position := (3, 9, -4), type := Mat.water } (((3 : ℤ) : ℝ), ((9 : ℤ) : ℝ), ((-4 : ℤ) : ℝ))
  refine ⟨(h.1 rfl rfl).1, (h.1 rfl rfl).2, h.2 ?_ rfl⟩
  rw [roundV_intCast]
  rfl

/-! ## C4: per-column material classification -/

/-- C4: every voxel emitted for a column is classified by its height against
the column surface: at the surface, snow above 28, rock above 22, sand at or
below the beach threshold 15, grass otherwise; below the surface, dirt
within 5 of it and stone deeper; above the surface, water, and only at or
below the water level. -/
theorem material_classification (hm : ℤ → ℤ → ℤ) (gx gz : ℤ) (b : BlockData)
    (hb : b ∈ columnBlocks hm gx gz) :
    (b.position.2.1 = hm gx gz →
      b.type = (if 28 < hm gx gz then Mat.snow
        else if 22 < hm gx gz then Mat.rock
        else if hm gx gz ≤ 15 then Mat.sand
        else Mat.grass))
    ∧ (b.position.2.1 < hm gx gz →
        ((hm gx gz - b.position.2.1 < 5 → b.type = Mat.dirt)
          ∧ (5 ≤ hm gx gz - b.position.2.1 → b.type = Mat.stone)))
    ∧ (hm gx gz < b.position.2.1 → b.type = Mat.water ∧ b.position.2.1 ≤ WATER_LEVEL) := by
  rcases List.mem_filterMap.mp hb with ⟨y, _, hf⟩
  by_cases h40 : MAX_HEIGHT < y
  · simp [h40] at hf
  by_cases hwl : hm gx gz < y ∧ WATER_LEVEL < y
  · simp [h40, hwl] at hf
  by_cases hv : isBlockVisible hm gx y gz
  · rw [if_neg h40, if_neg hwl, if_pos hv] at hf
    cases hf
    refine ⟨?_, ?_, ?_⟩ <;> simp only
    · intro hy
      rw [getBlockType, if_neg (by omega), if_pos hy]
      rw [show BEACH_HEIGHT = 15 by decide]
    · intro hy
      constructor
      · intro hd
        rw [getBlockType, if_neg (by omega), if_neg (by omega), if_pos hd]
      · intro hd
        rw [getBlockType, if_neg (by omega), if_neg (by omega), if_neg (by omega)]
    · intro hy
      refine ⟨by rw [getBlockType, if_pos hy], by omega⟩
  · simp [h40, hwl, hv] at hf

/-- Witness for C4 on the constant height map 18: the surface block of the
corner column is grass, the bottom block is stone, and a mid-depth block is
dirt. -/
theorem material_classification_witness :
    ((⟨((-64 : ℤ), 18, -64), Mat.grass, none⟩ : BlockData) ∈ columnBlocks (fun _ _ => 18) 0 0
      ∧ (⟨((-64 : ℤ), 18, -64), Mat.grass, none⟩ : BlockData).type
        = (if (28 : ℤ) < 18 then Mat.snow
          else if (22 : ℤ) < 18 then Mat.rock
          else if (18 : ℤ) ≤ 15 then Mat.sand
          else Mat.grass))
    ∧ ((⟨((-64 : ℤ), 0, -64), Mat.stone, none⟩ : BlockData) ∈ columnBlocks (fun _ _ => 18) 0 0
      ∧ (⟨((-64 : ℤ), 0, -64), Mat.stone, none⟩ : BlockData).type = Mat.stone)
    ∧ ((⟨((-64 : ℤ), 15, -64), Mat.dirt, none⟩ : BlockData) ∈ columnBlocks (fun _ _ => 18) 0 0
      ∧ (⟨((-64 : ℤ), 15, -64), Mat.dirt, none⟩ : BlockData).type = Mat.dirt) := by
  have h1 : (⟨((-64 : ℤ), 18, -64), Mat.grass, none⟩ : BlockData)
      ∈ columnBlocks (fun _ _ => 18) 0 0 := by decide
  have h2 : (⟨((-64 : ℤ), 0, -64), Mat.stone, none⟩ : BlockData)
      ∈ columnBlocks (fun _ _ => 18) 0 0 := by decide
  have h3 : (⟨((-64 : ℤ), 15, -64), Mat.dirt, none⟩ : BlockData)
      ∈ columnBlocks (fun _ _ => 18) 0 0 := by decide
  exact ⟨⟨h1, (material_classification _ 0 0 _ h1).1 rfl⟩,
    ⟨h2, ((material_classification _ 0 0 _ h2).2.1 (by decide)).2 (by decide)⟩,
    ⟨h3, ((material_classification _ 0 0 _ h3).2.1 (by decide)).1 (by decide)⟩⟩

/-! ## C5: visibility culling -/

/-- C5: the visibility test is exactly the disjunction of the spec (world
boundary, vertical extremes, at or above the own column surface, or higher
than one of the four horizontal neighbours), and every voxel stored by a
generation pass passes it. -/
theorem visibility_culling (hm : ℤ → ℤ → ℤ) (x y z : ℤ) (c : Coord) (b : BlockData) :
    (isBlockVisible hm x y z = true ↔
      ((x = 0 ∨ x = WORLD_SIZE - 1 ∨ z = 0 ∨ z = WORLD_SIZE - 1)
        ∨ (y = 0 ∨ y = MAX_HEIGHT - 1)
        ∨ hm x z ≤ y
        ∨ (hm (x - 1) z < y ∨ hm (x + 1) z < y ∨ hm x (z - 1) < y ∨ hm x (z + 1) < y)))
    ∧ (generateStore hm c = some b →
        isBlockVisible hm (c.1 + 64) c.2.1 (c.2.2 + 64) = true) := by
  constructor
  · unfold isBlockVisible
    split_ifs with h1 h2 h3 h4 h5 <;> simp <;> first | tauto | omega
  · obtain ⟨wx, y, wz⟩ := c
    intro hs
    unfold generateStore at hs
    simp only at hs
    by_cases hcond : 0 ≤ wx + 64 ∧ wx + 64 < WORLD_SIZE ∧ 0 ≤ wz + 64 ∧ wz + 64 < WORLD_SIZE ∧
        0 ≤ y ∧ y < max (hm (wx + 64) (wz + 64) + 1) (WATER_LEVEL + 1) ∧
        ¬ MAX_HEIGHT < y ∧ ¬ (hm (wx + 64) (wz + 64) < y ∧ WATER_LEVEL < y) ∧
        isBlockVisible hm (wx + 64) y (wz + 64)
    · exact hcond.2.2.2.2.2.2.2.2
    · rw [if_neg hcond] at hs
      cases hs

/-- Witness for C5: the bottom corner voxel of the constant-18 world is
stored, and the visibility test accepts it. -/
theorem visibility_culling_witness :
    isBlockVisible (fun _ _ => (18 : ℤ)) ((-64 : ℤ) + 64) 0 ((-64 : ℤ) + 64) = true :=
  (visibility_culling (fun _ _ => 18) 0 0 0 ((-64 : ℤ), 0, (-64 : ℤ))
    ⟨((-64 : ℤ), 0, -64), Mat.stone, none⟩).2 (by decide)

/-! ## C6: the picker's offset-and-round convention -/

/-- C6: the picker offsets the hit point half a unit against the face normal
and rounds; a hit on the top face of the voxel at `(5, 10, 5)` resolves to
`(5, 10, 5)`, and the resolved record is returned exactly when it exists and
is not water. -/
theorem picker_convention (s : Store) (b : BlockData) :
    (∀ px pz : ℚ, 9 / 2 ≤ px → px < 11 / 2 → 9 / 2 ≤ pz → pz < 11 / 2 →
      resolveCoord (px, 21 / 2, pz) (0, 1, 0) = (5, 10, 5))
    ∧ (∀ point normal c, resolveCoord point normal = c →
        (s c = none → pickBlock s point normal = none)
        ∧ (s c = some b → b.type = Mat.water → pickBlock s point normal = none)
        ∧ (s c = some b → b.type ≠ Mat.water → pickBlock s point normal = some b)) := by
  constructor
  · intro px pz h1 h2 h3 h4
    unfold resolveCoord roundJS
    simp only [Prod.mk.injEq]
    refine ⟨?_, ?_, ?_⟩
    · exact Int.floor_eq_iff.mpr ⟨by push_cast; linarith, by push_cast; linarith⟩
    · exact Int.floor_eq_iff.mpr ⟨by push_cast; norm_num, by push_cast; norm_num⟩
    · exact Int.floor_eq_iff.mpr ⟨by push_cast; linarith, by push_cast; linarith⟩
  · intro point normal c hres
    refine ⟨?_, ?_, ?_⟩
    · intro hc
      rw [pickBlock, hres, hc]
    · intro hc hw
      rw [pickBlock, hres, hc]
      simp [hw]
    · intro hc hw
      rw [pickBlock, hres, hc]
      simp [hw]

/-- Witness for C6 on `wStore`: a top-face hit resolves into the voxel below
the face, a resolved grass record is returned, a resolved water record is
not. -/
theorem picker_convention_witness :
    resolveCoord ((26 / 5 : ℚ), 21 / 2, 23 / 5) (0, 1, 0) = ((5 : ℤ), 10, 5)
    ∧ pickBlock wStore ((0 : ℚ), 1 / 2, 0) (0, 1, 0)
        = some ⟨((0 : ℤ), 0, 0), Mat.grass, none⟩
    ∧ pickBlock wStore ((3 : ℚ), 19 / 2, -4) (0, 1, 0) = none := by
  have hres1 : resolveCoord ((0 : ℚ), 1 / 2, 0) (0, 1, 0) = ((0 : ℤ), 0, 0) := by
    unfold resolveCoord roundJS
    simp only [Prod.mk.injEq]
    refine ⟨?_, ?_, ?_⟩ <;> exact Int.floor_eq_iff.mpr ⟨by push_cast; norm_num, by push_cast; norm_num⟩
  have hres2 : resolveCoord ((3 : ℚ), 19 / 2, -4) (0, 1, 0) = ((3 : ℤ), 9, -4) := by
    unfold resolveCoord roundJS
    simp only [Prod.mk.injEq]
    refine ⟨?_, ?_, ?_⟩ <;> exact Int.floor_eq_iff.mpr ⟨by push_cast; norm_num, by push_cast; norm_num⟩
  refine ⟨(picker_convention wStore ⟨((0 : ℤ), 0, 0), Mat.grass, none⟩).1
      (26 / 5) (23 / 5) (by norm_num) (by norm_num) (by norm_num) (by norm_num),
    ((picker_convention wStore ⟨((0 : ℤ), 0, 0), Mat.grass, none⟩).2
      ((0 : ℚ), 1 / 2, 0) (0, 1, 0) ((0 : ℤ), 0, 0) hres1).2.2 (by decide) (by decide),
    ((picker_convention wStore ⟨((3 : ℤ), 9, -4), Mat.water, none⟩).2
      ((3 : ℚ), 19 / 2, -4) (0, 1, 0) ((3 : ℤ), 9, -4) hres2).2.1 (by decide) rfl⟩

/-! ## C9: range of the noise pipeline and of the generated heights -/

/-- Monotonicity of the hyperbolic tangent. -/
theorem tanh_mono {a b : ℝ} (h : a ≤ b) : Real.tanh a ≤ Real.tanh b := by
  rw [Real.tanh_eq_sinh_div_cosh, Real.tanh_eq_sinh_div_cosh,
    div_le_div_iff₀ (Real.cosh_pos a) (Real.cosh_pos b)]
  have hs : 0 ≤ Real.sinh (b - a) := by
    have := Real.sinh_le_sinh.mpr (by linarith : (0 : ℝ) ≤ b - a)
    rwa [Real.sinh_zero] at this
  rw [Real.sinh_sub] at hs
  nlinarith [hs]

/-- The saturation denominator `Math.tanh(1.5)` is positive. -/
theorem tanh_one_point_five_pos : 0 < Real.tanh 1.5 := by
  rw [Real.tanh_eq_sinh_div_cosh]
  exact div_pos (Real.sinh_pos_iff.mpr (by norm_num)) (Real.cosh_pos _)

/-- The smoothstep weight `f * f * (3 - 2 * f)` stays in `[0, 1]` for
`0 ≤ f < 1`. -/
theorem smoothstep_bounds {f : ℚ} (h0 : 0 ≤ f) (h1 : f < 1) :
    0 ≤ f * f * (3 - 2 * f) ∧ f * f * (3 - 2 * f) ≤ 1 := by
  constructor <;>
    nlinarith [mul_nonneg (sq_nonneg (1 - f)) (by linarith : (0 : ℚ) ≤ 1 + 2 * f)]

/-- A convex combination of two values of `[-1, 1]` stays in `[-1, 1]`. -/
theorem interp_bounds {a b f : ℚ} (ha : -1 ≤ a ∧ a ≤ 1) (hb : -1 ≤ b ∧ b ≤ 1)
    (hf : 0 ≤ f ∧ f ≤ 1) :
    -1 ≤ a * (1 - f) + b * f ∧ a * (1 - f) + b * f ≤ 1 := by
  constructor <;> nlinarith [ha.1, ha.2, hb.1, hb.2, hf.1, hf.2]

/-- `smoothNoise` stays in `[-1, 1]` when every lattice sample does. -/
theorem smoothNoise_bounds (n : ℤ → ℤ → ℚ)
    (hn : ∀ a b : ℤ, -1 ≤ n a b ∧ n a b ≤ 1) (x z : ℚ) :
    -1 ≤ smoothNoise n x z ∧ smoothNoise n x z ≤ 1 := by
  have hx0 : (0 : ℚ) ≤ x - (⌊x⌋ : ℤ) := by
    have := Int.floor_le x; linarith
  have hx1 : x - (⌊x⌋ : ℤ) < 1 := by
    have := Int.lt_floor_add_one x; linarith
  have hz0 : (0 : ℚ) ≤ z - (⌊z⌋ : ℤ) := by
    have := Int.floor_le z; linarith
  have hz1 : z - (⌊z⌋ : ℤ) < 1 := by
    have := Int.lt_floor_add_one z; linarith
  have hfx := smoothstep_bounds hx0 hx1
  have hfz := smoothstep_bounds hz0 hz1
  have h1 := interp_bounds (hn ⌊x⌋ ⌊z⌋) (hn (⌊x⌋ + 1) ⌊z⌋) hfx
  have h2 := interp_bounds (hn ⌊x⌋ (⌊z⌋ + 1)) (hn (⌊x⌋ + 1) (⌊z⌋ + 1)) hfx
  exact interp_bounds h1 h2 hfz

/-- The invariant of the octave fold: the running total is bounded by the
running `maxValue`, and the amplitude stays nonnegative. -/
theorem fractal_fold_invariant (n : ℤ → ℤ → ℚ)
    (hn : ∀ a b : ℤ, -1 ≤ n a b ∧ n a b ≤ 1) (x z : ℚ) :
    ∀ (l : List ℕ) (acc : ℚ × ℚ × ℚ × ℚ),
      |acc.1| ≤ acc.2.2.2 → 0 ≤ acc.2.2.1 →
      |(l.foldl (octaveStep n x z) acc).1| ≤ (l.foldl (octaveStep n x z) acc).2.2.2
        ∧ 0 ≤ (l.foldl (octaveStep n x z) acc).2.2.1 := by
  intro l
  induction l with
  | nil => intro acc h1 h2; exact ⟨h1, h2⟩
  | cons i t ih =>
      intro acc h1 h2
      apply ih
      · have hs := smoothNoise_bounds n hn (x * acc.2.1) (z * acc.2.1)
        have habs := abs_le.mp h1
        rw [octaveStep]
        simp only
        rw [abs_le]
        constructor <;> nlinarith [hs.1, hs.2, habs.1, habs.2]
      · rw [octaveStep]
        simp only
        positivity

/-- The normalized fractal value stays in `[-1, 1]` when every lattice
sample does. -/
theorem fractalNormalized_bounds (n : ℤ → ℤ → ℚ)
    (hn : ∀ a b : ℤ, -1 ≤ n a b ∧ n a b ≤ 1) (x z : ℚ) :
    -1 ≤ fractalNormalized n x z ∧ fractalNormalized n x z ≤ 1 := by
  have hinv := (fractal_fold_invariant n hn x z (List.range OCTAVES) (0, 1, 1, 0)
    (by norm_num) (by norm_num)).1
  rw [fractalNormalized]
  set t := (fractalAcc n x z).1 with ht
  set m := (fractalAcc n x z).2.2.2 with hm
  rw [fractalAcc] at ht hm
  rw [← ht, ← hm] at hinv
  rcases eq_or_lt_of_le (le_trans (abs_nonneg t) hinv) with hm0 | hmpos
  · have ht0 : t = 0 := by
      rw [← hm0] at hinv
      simpa using hinv
    rw [ht0, ← hm0]
    norm_num
  · have := abs_le.mp hinv
    constructor
    · rw [le_div_iff₀ hmpos]; linarith [this.1]
    · rw [div_le_one hmpos]; linarith [this.2]

/-- The saturated fractal noise stays in `[-1, 1]` when every lattice sample
does. -/
theorem getFractalNoise_bounds (n : ℤ → ℤ → ℚ)
    (hn : ∀ a b : ℤ, -1 ≤ n a b ∧ n a b ≤ 1) (x z : ℚ) :
    -1 ≤ getFractalNoise n x z ∧ getFractalNoise n x z ≤ 1 := by
  have hv := fractalNormalized_bounds n hn x z
  have hv1 : (-1 : ℝ) ≤ (fractalNormalized n x z : ℚ) := by exact_mod_cast hv.1
  have hv2 : ((fractalNormalized n x z : ℚ) : ℝ) ≤ 1 := by exact_mod_cast hv.2
  rw [getFractalNoise]
  have hup : Real.tanh ((fractalNormalized n x z : ℚ) * 1.5) ≤ Real.tanh 1.5 :=
    tanh_mono (by nlinarith)
  have hlo : Real.tanh (-1.5) ≤ Real.tanh ((fractalNormalized n x z : ℚ) * 1.5) :=
    tanh_mono (by nlinarith)
  rw [show (-1.5 : ℝ) = -(1.5 : ℝ) by norm_num, Real.tanh_neg] at hlo
  constructor
  · rw [le_div_iff₀ tanh_one_point_five_pos]; linarith
  · rw [div_le_one tanh_one_point_five_pos]; linarith

/-- C9: with every lattice noise sample in `[-1, 1]` (the contract of the
`simplex-noise` sampler), the fractal noise value feeding each column height
lies in `[-1, 1]`, and every generated column height lies in
`[TERRAIN_OFFSET, MAX_HEIGHT]` (that is, in `[-2, 40]`). -/
theorem noise_and_height_bounds (n : ℤ → ℤ → ℚ)
    (hn : ∀ a b : ℤ, -1 ≤ n a b ∧ n a b ≤ 1) (gx gz : ℤ) :
    (-1 ≤ getFractalNoise n ((gx - 64 : ℤ) / NOISE_SCALE) ((gz - 64 : ℤ) / NOISE_SCALE)
      ∧ getFractalNoise n ((gx - 64 : ℤ) / NOISE_SCALE) ((gz - 64 : ℤ) / NOISE_SCALE) ≤ 1)
    ∧ (TERRAIN_OFFSET ≤ heightMapVal n gx gz ∧ heightMapVal n gx gz ≤ MAX_HEIGHT) := by
  have hb := getFractalNoise_bounds n hn ((gx - 64 : ℤ) / NOISE_SCALE) ((gz - 64 : ℤ) / NOISE_SCALE)
  refine ⟨hb, ?_⟩
  rw [heightMapVal, TERRAIN_OFFSET, MAX_HEIGHT]
  set v := getFractalNoise n ((gx - 64 : ℤ) / NOISE_SCALE) ((gz - 64 : ℤ) / NOISE_SCALE) with hv
  have h40 : (((40 : ℤ)) : ℝ) = (40 : ℝ) := by norm_num
  rw [h40]
  have h0 : (0 : ℤ) ≤ ⌊(v + 1) / 2 * (40 : ℝ)⌋ :=
    Int.le_floor.mpr (by push_cast; nlinarith [hb.1])
  have h1 : ⌊(v + 1) / 2 * (40 : ℝ)⌋ ≤ 40 := by
    have hle : (v + 1) / 2 * (40 : ℝ) ≤ 40 := by nlinarith [hb.2]
    have := (Int.floor_le ((v + 1) / 2 * (40 : ℝ))).trans hle
    exact_mod_cast this
  omega

/-- Witness for C9 at the constant-zero noise field and the corner column. -/
theorem noise_and_height_bounds_witness :
    (-1 ≤ getFractalNoise (fun _ _ => 0) (((0 : ℤ) - 64 : ℤ) / NOISE_SCALE) (((0 : ℤ) - 64 : ℤ) / NOISE_SCALE)
      ∧ getFractalNoise (fun _ _ => 0) (((0 : ℤ) - 64 : ℤ) / NOISE_SCALE) (((0 : ℤ) - 64 : ℤ) / NOISE_SCALE) ≤ 1)
    ∧ (TERRAIN_OFFSET ≤ heightMapVal (fun _ _ => 0) 0 0 ∧ heightMapVal (fun _ _ => 0) 0 0 ≤ MAX_HEIGHT) :=
  noise_and_height_bounds (fun _ _ => 0) (fun _ _ => by norm_num) 0 0

/-! ## C1: determinism of generation -/

/-- C1: a generation run is a pure function of the seed.  Beyond the
progress callback (which only reports loop counters and feeds nothing back),
`generateWorld` consumes randomness only through the seed-derived source
handed to `createNoise2D`, so two runs whose seeds produce the same source
value -- in particular two runs with the same seed -- yield identical height
maps, identical stored block sets and identical surface indices. -/
theorem generation_determinism (lib : ℚ → ℤ → ℤ → ℚ) (s₁ s₂ : ℕ)
    (h : seedNoiseSource s₁ = seedNoiseSource s₂) :
    (∀ gx gz, generationHeightMap lib s₁ gx gz = generationHeightMap lib s₂ gx gz)
    ∧ (∀ c, generationStore lib s₁ c = generationStore lib s₂ c)
    ∧ generationSurface lib s₁ = generationSurface lib s₂ := by
  have hh : generationHeightMap lib s₁ = generationHeightMap lib s₂ := by
    unfold generationHeightMap
    rw [h]
  exact ⟨fun gx gz => by rw [hh], fun c => by unfold generationStore; rw [hh],
    by unfold generationSurface; rw [hh]⟩

/-- Witness for C1: the seeds `0` and `233280` induce the same noise source
(the LCG collides modulo `233280`), hence identical runs. -/
theorem generation_determinism_witness :
    generationHeightMap zeroLib 0 7 9 = generationHeightMap zeroLib 233280 7 9
    ∧ generationStore zeroLib 0 ((0 : ℤ), 0, 0) = generationStore zeroLib 233280 ((0 : ℤ), 0, 0)
    ∧ generationSurface zeroLib 0 = generationSurface zeroLib 233280 := by
  have h : seedNoiseSource 0 = seedNoiseSource 233280 := by
    norm_num [seedNoiseSource]
  exact ⟨(generation_determinism zeroLib 0 233280 h).1 7 9,
    (generation_determinism zeroLib 0 233280 h).2.1 _,
    (generation_determinism zeroLib 0 233280 h).2.2⟩

/-! ## Evaluation of the pipeline on the constant-zero noise field -/

/-- `smoothNoise` of the zero field vanishes. -/
theorem smoothNoise_zeroFun (x z : ℚ) : smoothNoise (fun _ _ => 0) x z = 0 := by
  simp [smoothNoise]

/-- The normalized fractal value of the zero field vanishes. -/
theorem fractalNormalized_zeroFun (x z : ℚ) :
    fractalNormalized (fun _ _ => 0) x z = 0 := by
  unfold fractalNormalized fractalAcc OCTAVES
  rw [show List.range 5 = [0, 1, 2, 3, 4] from rfl]
  norm_num [List.foldl, octaveStep, smoothNoise_zeroFun]

/-- The saturated fractal noise of the zero field vanishes. -/
theorem getFractalNoise_zeroFun (x z : ℚ) :
    getFractalNoise (fun _ _ => 0) x z = 0 := by
  unfold getFractalNoise
  rw [fractalNormalized_zeroFun]
  simp [Real.tanh_zero]

/-- Every column height of the zero field is `18`. -/
theorem heightMapVal_zeroFun (gx gz : ℤ) :
    heightMapVal (fun _ _ => 0) gx gz = 18 := by
  unfold heightMapVal
  rw [getFractalNoise_zeroFun]
  have h20 : ((0 : ℝ) + 1) / 2 * ((MAX_HEIGHT : ℤ) : ℝ) = ((20 : ℤ) : ℝ) := by
    rw [MAX_HEIGHT]; norm_num
  rw [h20, Int.floor_intCast, TERRAIN_OFFSET]
  decide

/-- The height map of a trivially seeded run is the constant `18`. -/
theorem generationHeightMap_zeroLib (seed : ℕ) :
    generationHeightMap zeroLib seed = fun _ _ => (18 : ℤ) :=
  funext fun gx => funext fun gz => heightMapVal_zeroFun gx gz

/-! ## C3: consistency of the surface block index -/

/-- The origin column is one of the generator's grid cells. -/
theorem origin_mem_gridCells : ((0 : ℤ), (0 : ℤ)) ∈ gridCells := by
  unfold gridCells
  rw [List.mem_flatMap]
  refine ⟨0, ?_, ?_⟩
  · rw [List.mem_range]
    norm_num [WORLD_SIZE]
  · rw [List.mem_map]
    exact ⟨0, by rw [List.mem_range]; norm_num [WORLD_SIZE], rfl⟩

/-- On the constant height map `18`, the origin column contributes the grass
block at `(-64, 18, -64)` to the surface index. -/
theorem columnSurface_const18 :
    columnSurface (fun _ _ => (18 : ℤ)) 0 0
      = some ⟨((-64 : ℤ), 18, -64), Mat.grass, none⟩ := by decide

/-- C3 (amended): immediately after a generation pass the surface index is
consistent -- every indexed record sits at or above the water level and has
no stored record above it in its own column.  (The index is rebuilt only by
regeneration, so this holds of the generated store; see the counterexample
for mutated stores.) -/
theorem surface_index_consistency (hm : ℤ → ℤ → ℤ) :
    surfaceConsistent (generateStore hm) (surfaceIndex hm) := by
  intro b hb
  rcases List.mem_filterMap.mp hb with ⟨cell, _, hcs⟩
  have hpred := List.find?_some hcs
  have hmem := List.mem_of_find?_eq_some hcs
  simp only [decide_eq_true_eq] at hpred
  obtain ⟨hby, _, hwl⟩ := hpred
  rcases List.mem_filterMap.mp hmem with ⟨y, _, hf⟩
  by_cases h40 : MAX_HEIGHT < y
  · simp [h40] at hf
  by_cases hwy : hm cell.1 cell.2 < y ∧ WATER_LEVEL < y
  · simp [h40, hwy] at hf
  by_cases hv : isBlockVisible hm cell.1 y cell.2
  case neg => simp [h40, hwy, hv] at hf
  rw [if_neg h40, if_neg hwy, if_pos hv] at hf
  cases hf
  simp only at hby hwl ⊢
  constructor
  · rw [hby]
    exact hwl
  · intro y' hy'
    unfold generateStore
    simp only
    rw [if_neg]
    rintro ⟨-, -, -, -, -, -, -, hcontra, -⟩
    apply hcontra
    rw [show cell.1 - 64 + 64 = cell.1 by ring, show cell.2 - 64 + 64 = cell.2 by ring]
    rw [hby] at hy'
    exact ⟨hy', lt_of_le_of_lt hwl hy'⟩

/-- Witness for C3 (amended) on the constant height map `18`: the surface
record of the origin column lies above water level and nothing is stored
above it. -/
theorem surface_index_consistency_witness :
    WATER_LEVEL ≤ (18 : ℤ)
    ∧ generateStore (fun _ _ => (18 : ℤ)) ((-64 : ℤ), 25, (-64 : ℤ)) = none := by
  have hb : (⟨((-64 : ℤ), 18, -64), Mat.grass, none⟩ : BlockData)
      ∈ surfaceIndex (fun _ _ => 18) :=
    List.mem_filterMap.mpr ⟨((0 : ℤ), (0 : ℤ)), origin_mem_gridCells, columnSurface_const18⟩
  have h := surface_index_consistency (fun _ _ => 18) _ hb
  exact ⟨h.1, h.2 25 (by norm_num)⟩

/-- Counterexample for C3 as stated: after the generation pass of a seeded
run, a single `addBlock` directly above a surface-index record leaves the
(unrebuilt) index inconsistent with the store. -/
theorem surface_index_mutation_counterexample :
    ¬ surfaceConsistent
        (applyMuts [Mut.add ((-64 : ℤ), 19, -64) Mat.grass] (generationStore zeroLib 1))
        (generationSurface zeroLib 1) := by
  intro hcon
  have hhm := generationHeightMap_zeroLib 1
  have hb : (⟨((-64 : ℤ), 18, -64), Mat.grass, none⟩ : BlockData)
      ∈ generationSurface zeroLib 1 := by
    unfold generationSurface
    rw [hhm]
    exact List.mem_filterMap.mpr ⟨((0 : ℤ), (0 : ℤ)), origin_mem_gridCells, columnSurface_const18⟩
  have h2 := (hcon _ hb).2 19 (by norm_num)
  unfold generationStore at h2
  rw [hhm] at h2
  have hocc : generateStore (fun _ _ => (18 : ℤ)) ((-64 : ℤ), 19, -64) = none := by decide
  simp [applyMuts, applyMut, addBlock, hocc] at h2

/-! ## C7: minimum-separation sampling -/

/-- Horizontal squared distance is symmetric. -/
theorem dist2_comm (a b : BlockData) : dist2 a b = dist2 b a := by
  unfold dist2
  ring

/-- When the whole candidate list is pairwise separated, the greedy pass
never rejects anyone and simply keeps the first `count` candidates. -/
theorem greedySelect_of_pairwise (count : ℕ) :
    ∀ (l sel : List BlockData),
      (sel ++ l).Pairwise (fun a b => 64 ≤ dist2 a b) →
      greedySelect count l sel = sel ++ l.take (count - sel.length) := by
  intro l
  induction l with
  | nil => intro sel _; simp [greedySelect]
  | cons b rest ih =>
      intro sel h
      rw [greedySelect]
      by_cases hc : count ≤ sel.length
      · rw [if_pos hc]
        have h0 : count - sel.length = 0 := by omega
        simp [h0]
      · rw [if_neg hc]
        have htc : tooClose b sel = false := by
          rw [tooClose, List.any_eq_false]
          intro s hs
          have hsb : 64 ≤ dist2 s b := by
            have := (List.pairwise_append.mp h).2.2
            exact this s hs b (by simp)
          simp only [decide_eq_true_eq]
          rw [dist2_comm]
          omega
        rw [htc]
        simp only [Bool.false_eq_true, if_false]
        rw [ih (sel ++ [b]) (by rwa [← List.append_cons])]
        have hn : count - sel.length = (count - (sel ++ [b]).length) + 1 := by
          simp only [List.length_append, List.length_cons, List.length_nil]
          omega
        rw [hn, List.take_succ_cons, List.append_cons]
        simp

/-- For every candidate order and every pairwise-separated starting
selection, the greedy pass keeps a pairwise-separated selection: a candidate
is appended only after `tooClose` confirms it is at least 8 from everything
already kept. -/
theorem greedySelect_pairwise (count : ℕ) :
    ∀ (l sel : List BlockData),
      sel.Pairwise (fun a b => 64 ≤ dist2 a b) →
      (greedySelect count l sel).Pairwise (fun a b => 64 ≤ dist2 a b) := by
  intro l
  induction l with
  | nil =>
      intro sel h
      rw [greedySelect]
      exact h
  | cons b rest ih =>
      intro sel h
      rw [greedySelect]
      by_cases hc : count ≤ sel.length
      · rw [if_pos hc]
        exact h
      · rw [if_neg hc]
        cases htc : tooClose b sel with
        | true =>
            simp only [if_true]
            exact ih sel h
        | false =>
            simp only [Bool.false_eq_true, if_false]
            apply ih
            rw [List.pairwise_append]
            refine ⟨h, by simp, ?_⟩
            intro s hs b' hb'
            rw [List.mem_singleton] at hb'
            subst hb'
            have hfar := List.any_eq_false.mp (by rwa [tooClose] at htc) s hs
            simp only [decide_eq_true_eq] at hfar
            rw [dist2_comm] at hfar
            omega

/-- C7 (amended): for every shuffle order, the blocks kept by the greedy
pass are pairwise at least 8 apart in horizontal distance (the
squared-distance test `64 ≤ dist2` is `8 ≤ distance`); and when the
shuffled valid candidates are pairwise at least 8 apart and at least
`count` of them exist, `getRandomSurfaceBlocks` returns exactly `count`
blocks that are pairwise at least 8 apart.  When only some 8-subset is
separated, the greedy pass can stall below `count` and the unconstrained
fill may violate separation (see the counterexample). -/
theorem min_separation_sampling (surface shuffled : List BlockData) (count : ℕ) :
    (greedySelect count shuffled []).Pairwise (fun a b => 64 ≤ dist2 a b)
    ∧ (shuffled.Perm (surface.filter validSurface) →
        shuffled.Pairwise (fun a b => 64 ≤ dist2 a b) →
        count ≤ shuffled.length →
        (getRandomSurfaceBlocks surface shuffled count).length = count
        ∧ (getRandomSurfaceBlocks surface shuffled count).Pairwise
            (fun a b => 64 ≤ dist2 a b)) := by
  refine ⟨greedySelect_pairwise count shuffled [] List.Pairwise.nil, ?_⟩
  intro hperm hsep hlen
  unfold getRandomSurfaceBlocks
  by_cases hs : surface.length = 0
  · rw [if_pos hs]
    have hsurf : surface = [] := List.length_eq_zero.mp hs
    have hnil : shuffled = [] := List.Perm.eq_nil (by simpa [hsurf] using hperm)
    have : count = 0 := by
      rw [hnil] at hlen
      simpa using hlen
    simp [this]
  · rw [if_neg hs]
    have hg := greedySelect_of_pairwise count shuffled [] (by simpa using hsep)
    rw [hg]
    simp only [List.nil_append, List.length_nil, Nat.sub_zero]
    have hlen2 : (shuffled.take count).length = count := by
      rw [List.length_take]
      omega
    rw [fillSelect, if_neg (by omega)]
    exact ⟨hlen2, hsep.sublist (List.take_sublist _ _)⟩

/-- Witness for C7 (amended): the greedy selection over the adversarial
shuffle is itself pairwise separated, and on eight pairwise separated
surface blocks the call returns all eight. -/
theorem min_separation_sampling_witness :
    (greedySelect 8 advSurface []).Pairwise (fun a b => 64 ≤ dist2 a b)
    ∧ ((getRandomSurfaceBlocks sepSurface sepSurface 8).length = 8
      ∧ (getRandomSurfaceBlocks sepSurface sepSurface 8).Pairwise
          (fun a b => 64 ≤ dist2 a b)) :=
  ⟨(min_separation_sampling advSurface advSurface 8).1,
    (min_separation_sampling sepSurface sepSurface 8).2
      (by rw [show sepSurface.filter validSurface = sepSurface from by decide])
      (by decide) (by decide)⟩

/-- Counterexample for C7 as stated: `advSurface` is a valid surface index
containing eight pairwise separated blocks (`sepSurface`), yet for the
adversarial shuffle order the greedy pass stalls at seven blocks and the
unconstrained fill returns eight blocks that are not pairwise separated. -/
theorem min_separation_counterexample :
    advSurface.Perm (advSurface.filter validSurface)
    ∧ sepSurface.Sublist advSurface
    ∧ sepSurface.length = 8
    ∧ sepSurface.Pairwise (fun a b => 64 ≤ dist2 a b)
    ∧ (getRandomSurfaceBlocks advSurface advSurface 8).length = 8
    ∧ ¬ (getRandomSurfaceBlocks advSurface advSurface 8).Pairwise
        (fun a b => 64 ≤ dist2 a b) := by
  refine ⟨?_, by decide, by decide, by decide, by decide, by decide⟩
  rw [show advSurface.filter validSurface = advSurface from by decide]

/-! ## C8: collision-freedom of the vantage search -/

/-- Scanning an all-invalid candidate list yields no candidate. -/
theorem firstValid_eq_none (s : Store) (t : Vec3) :
    ∀ l : List Vec3, (∀ c ∈ l, ¬ IsValidSpot s c t) → firstValid s t l = none := by
  intro l
  induction l with
  | nil => intro _; rfl
  | cons c rest ih =>
      intro h
      rw [firstValid, if_neg (h c (by simp))]
      exact ih fun c' hc' => h c' (by simp [hc'])

/-- A candidate returned by the scan is valid. -/
theorem firstValid_mem_valid (s : Store) (t : Vec3) :
    ∀ (l : List Vec3) (c : Vec3), firstValid s t l = some c → IsValidSpot s c t := by
  intro l
  induction l with
  | nil => intro c h; cases h
  | cons a rest ih =>
      intro c h
      rw [firstValid] at h
      by_cases hv : IsValidSpot s a t
      · rw [if_pos hv] at h
        cases h
        exact hv
      · rw [if_neg hv] at h
        exact ih c h

/-- C8 (amended): the position chosen by `findIdealSpot` either is the final
fallback `target + (0, 25, 5)` -- which is returned without any check -- or
passes the collision check and has a clear view of the target.  (The
counterexample below shows the fallback itself can coincide with an occupied
non-target voxel, so the claim's "including the final fallback" direction
fails.) -/
theorem vantage_collision_freedom (s : Store) (target : Vec3) (pd : ℝ) :
    findIdealSpot s target pd = (target.1, target.2.1 + 25, target.2.2 + 5)
    ∨ (checkCameraCollision s (findIdealSpot s target pd) = false
        ∧ ClearView s (findIdealSpot s target pd) target) := by
  unfold findIdealSpot
  rcases hf : firstValid s target (vantageCandidates target pd) with - | c
  · left
    rfl
  · right
    rw [Option.getD_some]
    exact firstValid_mem_valid s target _ c hf

/-- The four diagonal direction vectors of the search, evaluated
(`(±8, 0, ±8).normalize().multiplyScalar(8)`). -/
theorem normMulScalar_se :
    normMulScalar ((8 : ℝ), 0, 8) 8 = (64 / Real.sqrt 128, 0, 64 / Real.sqrt 128) := by
  unfold normMulScalar vecLength
  rw [Prod.ext_iff, Prod.ext_iff]
  norm_num
  ring

/-- South-west diagonal. -/
theorem normMulScalar_sw :
    normMulScalar ((-8 : ℝ), 0, 8) 8 = (-(64 / Real.sqrt 128), 0, 64 / Real.sqrt 128) := by
  unfold normMulScalar vecLength
  rw [Prod.ext_iff, Prod.ext_iff]
  norm_num
  constructor <;> ring

/-- North-east diagonal. -/
theorem normMulScalar_ne :
    normMulScalar ((8 : ℝ), 0, -8) 8 = (64 / Real.sqrt 128, 0, -(64 / Real.sqrt 128)) := by
  unfold normMulScalar vecLength
  rw [Prod.ext_iff, Prod.ext_iff]
  norm_num
  constructor <;> ring

/-- North-west diagonal. -/
theorem normMulScalar_nw :
    normMulScalar ((-8 : ℝ), 0, -8) 8 = (-(64 / Real.sqrt 128), 0, -(64 / Real.sqrt 128)) := by
  unfold normMulScalar vecLength
  rw [Prod.ext_iff, Prod.ext_iff]
  norm_num
  ring

/-- Loose bounds on the diagonal offset `64 / sqrt 128 ≈ 5.66`. -/
theorem diag_offset_bounds : 0 < 64 / Real.sqrt 128 ∧ 64 / Real.sqrt 128 ≤ 8 := by
  have h8 : (8 : ℝ) ≤ Real.sqrt 128 := by
    rw [show (8 : ℝ) = Real.sqrt 64 from by
      rw [show (64 : ℝ) = 8 ^ 2 by norm_num, Real.sqrt_sq (by norm_num : (0 : ℝ) ≤ 8)]]
    exact Real.sqrt_le_sqrt (by norm_num)
  have hp : (0 : ℝ) < Real.sqrt 128 := lt_of_lt_of_le (by norm_num) h8
  refine ⟨by positivity, ?_⟩
  rw [div_le_iff₀ hp]
  nlinarith

/-- Bracketing bounds for `Math.round` over `ℝ`. -/
theorem roundR_bounds (x : ℝ) (lo hi : ℤ) (h1 : (lo : ℝ) ≤ x + 1 / 2)
    (h2 : x + 1 / 2 < (hi : ℝ) + 1) : lo ≤ roundR x ∧ roundR x ≤ hi := by
  unfold roundR
  constructor
  · exact Int.le_floor.mpr h1
  · have hc : (⌊x + 1 / 2⌋ : ℝ) < (hi : ℝ) + 1 := lt_of_le_of_lt (Int.floor_le _) h2
    have : ⌊x + 1 / 2⌋ < hi + 1 := by exact_mod_cast hc
    omega

/-- Any position whose rounded coordinate falls inside the box collides. -/
theorem collide_box (p : Vec3)
    (hy1 : (1 : ℝ) ≤ p.2.1 + 1 / 2) (hy2 : p.2.1 + 1 / 2 < (26 : ℝ) + 1)
    (hx1 : (-9 : ℝ) ≤ p.1 + 1 / 2) (hx2 : p.1 + 1 / 2 < (9 : ℝ) + 1)
    (hz1 : (-9 : ℝ) ≤ p.2.2 + 1 / 2) (hz2 : p.2.2 + 1 / 2 < (9 : ℝ) + 1) :
    checkCameraCollision boxStore p = true := by
  have hy := roundR_bounds p.2.1 1 26 (by exact_mod_cast hy1) (by exact_mod_cast hy2)
  have hx := roundR_bounds p.1 (-9) 9 (by exact_mod_cast hx1) (by exact_mod_cast hx2)
  have hz := roundR_bounds p.2.2 (-9) 9 (by exact_mod_cast hz1) (by exact_mod_cast hz2)
  rw [checkCameraCollision]
  have hstore : boxStore (roundV p) = some { position := roundV p, type := Mat.grass } := by
    unfold boxStore roundV
    rw [if_pos]
    exact ⟨hy.1, hy.2, hx.1, hx.2, hz.1, hz.2⟩
  simp [getBlock, hstore]

/-- Folding `addBlock` over a duplicate-free list of fresh coordinates
stores exactly the corresponding grass records. -/
theorem addBlocks_fresh :
    ∀ (L : List Coord) (s : Store), (∀ c ∈ L, s c = none) → L.Nodup →
      ∀ c, applyMuts (L.map fun p => Mut.add p Mat.grass) s c
        = if c ∈ L then some { position := c, type := Mat.grass } else s c := by
  intro L
  induction L with
  | nil => intro s _ _ c; simp [applyMuts]
  | cons p rest ih =>
      intro s h hnd c
      have hsp : s p = none := h p (by simp)
      have hadd : addBlock p Mat.grass s
          = fun c => if c = p then some { position := p, type := Mat.grass } else s c := by
        unfold addBlock
        rw [if_neg (by simp), if_neg (by simp [hsp])]
      have hstep : applyMuts ((p :: rest).map fun q => Mut.add q Mat.grass) s
          = applyMuts (rest.map fun q => Mut.add q Mat.grass) (addBlock p Mat.grass s) := rfl
      rw [hstep, hadd]
      have hrest : ∀ c ∈ rest,
          (fun c => if c = p then some { position := p, type := Mat.grass } else s c) c = none := by
        intro c hc
        have hne : c ≠ p := by
          rintro rfl
          exact (List.nodup_cons.mp hnd).1 hc
        simp [hne, h c (by simp [hc])]
      rw [ih _ hrest (List.nodup_cons.mp hnd).2 c]
      by_cases hcr : c ∈ rest
      · simp [hcr]
      · by_cases hcp : c = p
        · subst hcp
          simp [hcr]
        · simp [hcr, hcp]

/-- The enumeration of the box has no duplicates. -/
theorem boxCoords_nodup : boxCoords.Nodup := by
  unfold boxCoords
  apply List.Nodup.map
  · intro t1 t2 ht
    simp only [Prod.mk.injEq] at ht
    obtain ⟨h1, h2, h3⟩ := ht
    have e1 : t1.1 = t2.1 := by omega
    have e2 : t1.2.1 = t2.2.1 := by omega
    have e3 : t1.2.2 = t2.2.2 := by omega
    exact Prod.ext e1 (Prod.ext e2 e3)
  · exact (List.nodup_range 19).product ((List.nodup_range 26).product (List.nodup_range 19))

/-- Membership in the enumeration is exactly the box condition. -/
theorem mem_boxCoords (c : Coord) :
    c ∈ boxCoords ↔
      (1 ≤ c.2.1 ∧ c.2.1 ≤ 26 ∧ -9 ≤ c.1 ∧ c.1 ≤ 9 ∧ -9 ≤ c.2.2 ∧ c.2.2 ≤ 9) := by
  unfold boxCoords
  rw [List.mem_map]
  constructor
  · rintro ⟨⟨a, b, d⟩, ht, rfl⟩
    simp only [List.mem_product, List.mem_range] at ht
    simp only
    omega
  · intro hb
    refine ⟨((c.1 + 9).toNat, (c.2.1 - 1).toNat, (c.2.2 + 9).toNat), ?_, ?_⟩
    · simp only [List.mem_product, List.mem_range]
      omega
    · obtain ⟨x, y, z⟩ := c
      simp only at hb ⊢
      refine Prod.ext ?_ (Prod.ext ?_ ?_) <;> simp only
      · rw [Int.toNat_of_nonneg (by omega)]; ring
      · rw [Int.toNat_of_nonneg (by omega)]; ring
      · rw [Int.toNat_of_nonneg (by omega)]; ring

/-- `boxStore` is reached from the empty store by `addBlock` mutations
alone. -/
theorem boxStore_reachable :
    ∀ c, applyMuts (boxCoords.map fun p => Mut.add p Mat.grass) emptyStore c = boxStore c := by
  intro c
  rw [addBlocks_fresh boxCoords emptyStore (fun _ _ => rfl) boxCoords_nodup c]
  unfold boxStore
  by_cases h : c ∈ boxCoords
  · rw [if_pos h, if_pos ((mem_boxCoords c).mp h)]
  · rw [if_neg h, if_neg fun hx => h ((mem_boxCoords c).mpr hx)]
    rfl

/-- Counterexample for C8 as stated: on a store reached from the empty store
through `addBlock` alone, every candidate of the search collides, so
`findIdealSpot` returns the unchecked fallback `target + (0, 25, 5)` -- and
that position coincides with an occupied non-target voxel: the collision
check there finds a stored block. -/
theorem vantage_fallback_counterexample :
    findIdealSpot (applyMuts (boxCoords.map fun p => Mut.add p Mat.grass) emptyStore)
        ((0 : ℝ), 0, 0) 8 = ((0 : ℝ), 25, 5)
    ∧ checkCameraCollision (applyMuts (boxCoords.map fun p => Mut.add p Mat.grass) emptyStore)
        ((0 : ℝ), 25, 5) = true
    ∧ roundV ((0 : ℝ), 25, 5) ≠ roundV ((0 : ℝ), 0, 0) := by
  have hS : applyMuts (boxCoords.map fun p => Mut.add p Mat.grass) emptyStore = boxStore :=
    funext boxStore_reachable
  rw [hS]
  have hb := diag_offset_bounds
  have hall : ∀ c ∈ vantageCandidates ((0 : ℝ), 0, 0) 8,
      ¬ IsValidSpot boxStore c ((0 : ℝ), 0, 0) := by
    intro c hc hval
    have hcol : checkCameraCollision boxStore c = true := by
      unfold vantageCandidates cameraHeights cameraDirections at hc
      simp only [List.mem_flatMap, List.mem_map, List.mem_cons, List.not_mem_nil,
        or_false] at hc
      obtain ⟨h, hh, d, hd, rfl⟩ := hc
      rcases hh with rfl | rfl | rfl | rfl | rfl <;>
        rcases hd with rfl | rfl | rfl | rfl | rfl | rfl | rfl | rfl <;>
        (try rw [normMulScalar_se]) <;> (try rw [normMulScalar_sw]) <;>
        (try rw [normMulScalar_ne]) <;> (try rw [normMulScalar_nw]) <;>
        apply collide_box <;> (try norm_num) <;> (try linarith [hb.1, hb.2])
    rw [hval.1] at hcol
    simp at hcol
  refine ⟨?_, ?_, ?_⟩
  · unfold findIdealSpot
    rw [firstValid_eq_none _ _ _ hall, Option.getD_none]
    norm_num
  · apply collide_box <;> norm_num
  · intro heq
    have h1 : roundV ((0 : ℝ), 25, 5) = ((0 : ℤ), 25, 5) := by
      unfold roundV
      refine Prod.ext ?_ (Prod.ext ?_ ?_) <;> simp only <;>
        exact roundR_eq _ _ (by norm_num) (by norm_num)
    have h2 : roundV ((0 : ℝ), 0, 0) = ((0 : ℤ), 0, 0) := by
      unfold roundV
      refine Prod.ext ?_ (Prod.ext ?_ ?_) <;> simp only <;>
        exact roundR_eq _ _ (by norm_num) (by norm_num)
    rw [h1, h2] at heq
    exact absurd heq (by decide)
